import Mathlib

/-!
Verification development for the `littlealchemy2-cheat` path-resolution engine.

The Rust sources (`src/structures/{mod,condition,history,game_status,path}.rs`)
are embedded shallowly:

* machine integers (`u16`, `usize`) become `Nat`; where the source performs a
  `usize` subtraction that could underflow, the embedding checks the bound and
  treats underflow as a panic (debug semantics of the binary);
* `HashMap<u16, _>` becomes an association list; the unspecified-but-fixed
  iteration order of `ElementsList`'s backing map is the order of the embedded
  element list;
* panics (`assert!`, `Index` on a missing key, `unwrap`) become an explicit
  `panic` outcome (`Option.none` or a dedicated constructor);
* the possibly-diverging driver loops (`GameStatus::obtain`,
  `GameStatus::finish_game`) and the recursion of
  `PathToElement::advance_one_level` take explicit fuel, with a `nofuel`
  outcome; every function is structurally recursive so that concrete runs
  evaluate inside the kernel.
-/

set_option maxRecDepth 4000

namespace LittleAlchemy2

/-- Element identifier (`u16` in the source). -/
abbrev ElemId := Nat

/-- `Combination` (mod.rs): a pair of element ids. -/
structure Combination where
  fst : ElemId
  snd : ElemId
deriving DecidableEq, Repr

/-- `impl PartialEq for Combination` (mod.rs lines 40-45): order-independent equality. -/
def combEq (a b : Combination) : Bool :=
  (a.fst == b.fst && a.snd == b.snd) || (a.fst == b.snd && a.snd == b.fst)

/-- `Combination::contains` (mod.rs): true if either component is among `ids`. -/
def Combination.containsIds (c : Combination) (ids : List ElemId) : Bool :=
  ids.contains c.fst || ids.contains c.snd

/-- `Condition` (condition.rs): the unlock condition attached to an element. -/
inductive Condition where
  | none
  | progress (total : Nat)
  | elements (elements : List ElemId) (min : Nat)
deriving DecidableEq, Repr

/-- `AlchemyElement` (mod.rs). -/
structure AlchemyElement where
  id : ElemId
  name : String
  combinations : List Combination
  prime : Bool
  base : Bool
  hidden : Bool
  final_ : Bool
  condition : Condition
  can_create : List ElemId
deriving DecidableEq, Repr

/-- `HistoryItem` (history.rs); the timestamp is kept as an integer (epoch millis). -/
structure HistoryItem where
  combination : Combination
  datetime : Int
deriving DecidableEq, Repr

/-- `History::has_combination` (history.rs lines 95-97). -/
def has_combination (h : List HistoryItem) (c : Combination) : Bool :=
  h.any (fun x => combEq x.combination c)

/-- `GameStatus` (game_status.rs); `elements` is the backing map of
`ElementsList` in its (fixed) iteration order. -/
structure GameStatus where
  elements : List AlchemyElement
  acquired_elements : List ElemId
  history : List HistoryItem
deriving DecidableEq, Repr

/-- `ElementsList::get` / the `Index` impl: first element with the given id. -/
def elements_get (els : List AlchemyElement) (id : ElemId) : Option AlchemyElement :=
  els.find? (fun e => e.id == id)

/-- `ElementsList::get_from_combination` (game_status.rs lines 30-32):
elements whose production list contains the combination (unordered equality). -/
def get_from_combination (els : List AlchemyElement) (c : Combination) : List AlchemyElement :=
  els.filter (fun e => e.combinations.any (fun cb => combEq cb c))

/-- `GameStatus::add_prime_elements` (game_status.rs lines 132-138). -/
def add_prime_elements (els : List AlchemyElement) (acquired : List ElemId) : List ElemId :=
  els.foldl (fun a item => if item.prime then a ++ [item.id] else a) acquired

/-- The scan of the current acquired list in the `Condition::Elements` arm of
`add_unlocked_elements`: counts members of `els`, succeeding as soon as the
count reaches `mn` (note: with `mn = 0` at least one match is still required,
because the count is compared only after being incremented). -/
def elements_cond_met (els : List ElemId) (mn : Nat) : List ElemId → Nat → Bool
  | [], _ => false
  | a :: rest, count =>
    if els.contains a then
      (if count + 1 ≥ mn then true else elements_cond_met els mn rest (count + 1))
    else elements_cond_met els mn rest count

/-- One element's step of `GameStatus::add_unlocked_elements` (game_status.rs
lines 140-165). The `Progress` arm pushes unconditionally on the size test
(even if the id is already present), mirroring the source. -/
def unlock_step (acquired : List ElemId) (item : AlchemyElement) : List ElemId :=
  match item.condition with
  | Condition.none => acquired
  | Condition.progress total =>
      if acquired.length > total then acquired ++ [item.id] else acquired
  | Condition.elements els mn =>
      if elements_cond_met els mn acquired 0 then acquired ++ [item.id] else acquired

/-- `GameStatus::add_unlocked_elements` (game_status.rs lines 140-165):
one forward pass over all elements. -/
def add_unlocked_elements (els : List AlchemyElement) (acquired : List ElemId) : List ElemId :=
  els.foldl unlock_step acquired

/-- Association-list lookup (models `HashMap::get` / `contains_key`). -/
def alookup {β : Type} : List (ElemId × β) → ElemId → Option β
  | [], _ => Option.none
  | (k, v) :: rest, id => if k == id then some v else alookup rest id

/-- Association-list insert; overwrites an existing binding, appends otherwise
(models `HashMap::insert` / a vacant `Entry::insert`). -/
def ainsert {β : Type} : List (ElemId × β) → ElemId → β → List (ElemId × β)
  | [], k, v => [(k, v)]
  | (k', v') :: rest, k, v =>
      if k' == k then (k, v) :: rest else (k', v') :: ainsert rest k v

/-- Association-list in-place update of an existing binding only. -/
def aset {β : Type} : List (ElemId × β) → ElemId → β → List (ElemId × β)
  | [], _, _ => []
  | (k', v') :: rest, k, v =>
      if k' == k then (k, v) :: rest else (k', v') :: aset rest k v

/-- Association-list key removal (models `Entry::remove`). -/
def aremove {β : Type} : List (ElemId × β) → ElemId → List (ElemId × β)
  | [], _ => []
  | (k', v') :: rest, k => if k' == k then rest else (k', v') :: aremove rest k

/-- Appends `v` to the entry of `k`, creating the entry if absent (models
`can_create.entry(k).or_default().push(v)` in `check_can_create`). -/
def push_entry : List (ElemId × List ElemId) → ElemId → ElemId → List (ElemId × List ElemId)
  | [], k, v => [(k, [v])]
  | (k', l) :: rest, k, v =>
      if k' == k then (k', l ++ [v]) :: rest else (k', l) :: push_entry rest k v

/-- Removes consecutive duplicates (`Vec::dedup`). -/
def dedupAdj : List Nat → List Nat
  | [] => []
  | [a] => [a]
  | a :: b :: rest => if a == b then dedupAdj (b :: rest) else a :: dedupAdj (b :: rest)

/-- `sort_unstable` followed by `dedup`. Sorting `Nat`s over a total order has
a unique result, so any correct sort models `sort_unstable`. -/
def sort_dedup (l : List Nat) : List Nat :=
  dedupAdj (List.insertionSort (· ≤ ·) l)

/-- The scratch `can_create` map of `GameStatus::check_can_create`
(game_status.rs lines 167-174): for every element and every combination in its
production list, the element's id is pushed onto the entries of both operands. -/
def build_can_create (els : List AlchemyElement) : List (ElemId × List ElemId) :=
  els.foldl
    (fun m item =>
      item.combinations.foldl
        (fun m c => push_entry (push_entry m c.fst item.id) c.snd item.id) m)
    []

/-- `GameStatus::check_can_create` (game_status.rs lines 167-182) as a boolean:
`false` means the assertion fails. Elements without an entry in the scratch map
(nothing lists them in a combination) are not checked. -/
def check_can_create (els : List AlchemyElement) : Bool :=
  let m := build_can_create els
  els.all (fun item =>
    match alookup m item.id with
    | some l => sort_dedup l == item.can_create
    | Option.none => true)

/-- `GameStatus::check_final` (game_status.rs lines 184-190) as a boolean. -/
def check_final (els : List AlchemyElement) : Bool :=
  els.all (fun item => !item.final_ || item.can_create.isEmpty)

/-- `GameStatus::check` (game_status.rs lines 125-130): seeds prime elements,
runs one unlock pass, then the two consistency assertions (`none` = panic). -/
def GameStatus.check (s : GameStatus) : Option GameStatus :=
  let a1 := add_prime_elements s.elements s.acquired_elements
  let a2 := add_unlocked_elements s.elements a1
  if check_can_create s.elements && check_final s.elements then
    some { s with acquired_elements := a2 }
  else Option.none

/-- `GameStatus::new` (game_status.rs lines 115-123). -/
def game_status_new (els : List AlchemyElement) (hist : List HistoryItem) : Option GameStatus :=
  GameStatus.check { elements := els, acquired_elements := [], history := hist }

/-- One element's step of `GameStatus::combine`: push the producing element's
id if absent, then the source's assertion that the element's production list
really contains the combination (`none` = panic). -/
def combine_step (c : Combination) (a : List ElemId) (e : AlchemyElement) : Option (List ElemId) :=
  if e.combinations.any (fun cb => combEq cb c) then
    some (if a.contains e.id then a else a ++ [e.id])
  else Option.none

/-- `GameStatus::combine` (game_status.rs lines 192-208). The warning `println!`
on an unknown combination is a pure side effect and is dropped. -/
def combine (s : GameStatus) (c : Combination) : Option GameStatus := do
  let acq ← (get_from_combination s.elements c).foldlM (combine_step c) s.acquired_elements
  some { s with acquired_elements := acq }

/-- `GameStatus::can_do_combination` (game_status.rs lines 210-212). -/
def can_do_combination (s : GameStatus) (c : Combination) : Bool :=
  s.acquired_elements.contains c.fst && s.acquired_elements.contains c.snd

/-! ## The path resolver (path.rs) -/

/-- `PathToCombination` (path.rs): two `PathToElement`s, each wrapping a
reference to an element; modelled as the pair of the referenced elements. -/
abbrev PathToCombination := AlchemyElement × AlchemyElement

/-- `PathToCombinationList` (path.rs lines 7-12): the candidate combinations
and the minimum number of them that must succeed. -/
abbrev PathToCombinationList := List PathToCombination × Nat

/-- The memo `element_to_combinations` threaded through `advance_one_level`. -/
abbrev Memo := List (ElemId × PathToCombinationList)

/-- The `recursive_history` map threaded through `advance_one_level`. -/
abbrev RecHist := List (ElemId × Bool)

/-- `PathToCombination::from` (path.rs lines 21-28); `none` models the `Index`
panic when an operand id is not in the element map. -/
def path_to_combination_from (c : Combination) (data : GameStatus) : Option PathToCombination := do
  let e0 ← elements_get data.elements c.fst
  let e1 ← elements_get data.elements c.snd
  some (e0, e1)

/-- `PathToElement::get_path_to_combinations` (path.rs lines 41-79). `usize`
subtractions that would underflow, and the `assert!(*min - already_acquired > 0)`,
are modelled as panics (`none`). -/
def get_path_to_combinations (self : AlchemyElement) (data : GameStatus) :
    Option PathToCombinationList :=
  if data.acquired_elements.contains self.id || self.prime then some ([], 0)
  else
    match self.condition with
    | Condition.none => do
        let l ← self.combinations.mapM (fun c => path_to_combination_from c data)
        some (l, 1)
    | Condition.progress total =>
        if data.acquired_elements.length ≤ total then do
          let l ← (data.elements.flatMap (fun e => e.combinations)).mapM
            (fun c => path_to_combination_from c data)
          some (l, total - data.acquired_elements.length)
        else Option.none
    | Condition.elements els mn => do
        let p ← els.foldlM
          (fun (p : List Combination × Nat) eid =>
            if data.acquired_elements.contains eid then some (p.1, p.2 + 1)
            else do
              let e ← elements_get data.elements eid
              some (p.1 ++ e.combinations, p.2))
          (self.combinations, 0)
        if p.2 < mn then do
          let l ← p.1.mapM (fun c => path_to_combination_from c data)
          some (l, mn - p.2)
        else Option.none

/-- Outcome of one `advance_one_level` call. `ok` is the source's `Ok(())`
(not satisfied yet), `chain` is `Err(chain)` (satisfied, carrying the
combination chain); both carry the mutated memo and recursion-history maps. -/
inductive AdvRes where
  | ok (memo : Memo) (rh : RecHist)
  | chain (c : List Combination) (memo : Memo) (rh : RecHist)
  | panic
  | nofuel
deriving DecidableEq, Repr

/-- `recursive_history.entry(id).or_insert_with(|| memo.contains_key(&id))`:
returns the (possibly just inserted) flag together with the updated map. -/
def rec_entry (rh : RecHist) (id : ElemId) (memo : Memo) : Bool × RecHist :=
  match alookup rh id with
  | some b => (b, rh)
  | Option.none =>
      let b := (alookup memo id).isSome
      (b, ainsert rh id b)

/-- The candidate loop of `advance_one_level` (path.rs lines 118-150): advances
both operands of each candidate one level, counting candidates whose two
operands both resolved to a chain; returns `Err(ret_chains.concat())` once
`counter >= min`. -/
def advance_list (adv : AlchemyElement → Memo → List ElemId → RecHist → Bool → AdvRes)
    (selfId : ElemId) (path : List ElemId) (mn : Nat) :
    List PathToCombination → Memo → RecHist → Nat → List (List Combination) → AdvRes
  | [], memo, rh, _, _ => AdvRes.ok memo rh
  | comb :: rest, memo, rh, counter, acc =>
    let id0 := comb.1.id
    let id1 := comb.2.id
    let new_path := path ++ [selfId]
    let r0 := rec_entry rh comb.1.id memo
    match adv comb.1 memo new_path r0.2 r0.1 with
    | AdvRes.panic => AdvRes.panic
    | AdvRes.nofuel => AdvRes.nofuel
    | AdvRes.ok memo1 rh1 =>
        let r1 := rec_entry rh1 comb.2.id memo1
        (match adv comb.2 memo1 new_path r1.2 r1.1 with
         | AdvRes.panic => AdvRes.panic
         | AdvRes.nofuel => AdvRes.nofuel
         | AdvRes.ok memo2 rh2 =>
             advance_list adv selfId path mn rest memo2 rh2 counter acc
         | AdvRes.chain _ memo2 rh2 =>
             advance_list adv selfId path mn rest memo2 rh2 counter acc)
    | AdvRes.chain c1 memo1 rh1 =>
        let r1 := rec_entry rh1 comb.2.id memo1
        (match adv comb.2 memo1 new_path r1.2 r1.1 with
         | AdvRes.panic => AdvRes.panic
         | AdvRes.nofuel => AdvRes.nofuel
         | AdvRes.ok memo2 rh2 =>
             advance_list adv selfId path mn rest memo2 rh2 counter acc
         | AdvRes.chain c2 memo2 rh2 =>
             let final_chain := c1 ++ c2 ++ [Combination.mk id0 id1]
             let acc' := acc ++ [final_chain]
             if counter + 1 ≥ mn then AdvRes.chain acc'.flatten memo2 rh2
             else advance_list adv selfId path mn rest memo2 rh2 (counter + 1) acc')

/-- The part of `advance_one_level` after the memo entry is ensured
(path.rs lines 105-150). -/
def advance_after (adv : AlchemyElement → Memo → List ElemId → RecHist → Bool → AdvRes)
    (self : AlchemyElement) (memo : Memo) (path : List ElemId) (rh : RecHist)
    (recursive : Bool) : AdvRes :=
  match alookup memo self.id with
  | Option.none => AdvRes.panic
  | some (combs, mn) =>
      if combs.isEmpty then
        (if mn == 0 then AdvRes.chain [] memo rh else AdvRes.panic)
      else if recursive then advance_list adv self.id path mn combs memo rh 0 []
      else AdvRes.ok memo rh

/-- The body of `advance_one_level` (path.rs lines 81-151), parameterised by
the function used for the one-level-deeper operand calls. -/
def advance_body (data : GameStatus)
    (adv : AlchemyElement → Memo → List ElemId → RecHist → Bool → AdvRes)
    (self : AlchemyElement) (memo : Memo) (path : List ElemId) (rh : RecHist)
    (recursive : Bool) : AdvRes :=
  if path.contains self.id then AdvRes.ok memo rh
  else
    match alookup memo self.id with
    | Option.none =>
        (match get_path_to_combinations self data with
         | Option.none => AdvRes.panic
         | some ptcl =>
             if recursive then AdvRes.panic
             else advance_after adv self (ainsert memo self.id ptcl) path rh recursive)
    | some _ => advance_after adv self memo path (ainsert rh self.id false) recursive

/-- `PathToElement::advance_one_level` (path.rs lines 81-151) with fuel
bounding the recursion depth. -/
def advance (data : GameStatus) :
    Nat → AlchemyElement → Memo → List ElemId → RecHist → Bool → AdvRes
  | 0, _, _, _, _, _ => AdvRes.nofuel
  | fuel + 1, self, memo, path, rh, recursive =>
      advance_body data (fun s m p r b => advance data fuel s m p r b)
        self memo path rh recursive

/-- Outcome of `GameStatus::obtain`. -/
inductive ObtainRes where
  | result (c : List Combination)
  | panic
  | nofuel
deriving DecidableEq, Repr

/-- The driver loop of `GameStatus::obtain` (game_status.rs lines 218-224):
repeatedly advances the target with the accumulated memo (and a fresh
`recursive_history` each round) until a chain is produced. -/
def obtain_loop (data : GameStatus) (target : AlchemyElement) (advFuel : Nat) :
    Nat → Memo → Bool → ObtainRes
  | 0, _, _ => ObtainRes.nofuel
  | lf + 1, memo, recursive =>
      match advance data advFuel target memo [] [] recursive with
      | AdvRes.ok memo' _ => obtain_loop data target advFuel lf memo' true
      | AdvRes.chain c _ _ => ObtainRes.result c
      | AdvRes.panic => ObtainRes.panic
      | AdvRes.nofuel => ObtainRes.nofuel

/-- `GameStatus::obtain` (game_status.rs lines 214-225); the initial `Index`
into the element map may panic. -/
def obtain (data : GameStatus) (element_id : ElemId) (advFuel loopFuel : Nat) : ObtainRes :=
  match elements_get data.elements element_id with
  | Option.none => ObtainRes.panic
  | some e => obtain_loop data e advFuel loopFuel [] false

/-! ## finish_game (game_status.rs lines 227-270) -/

/-- Rust `slice::binary_search` on a `Vec<u16>`, fuelled (the interval shrinks
every round, so `len + 1` rounds always suffice; the fuel-0 branch is
unreachable). -/
def rbs_loop (l : List ElemId) (t : ElemId) : Nat → Nat → Nat → Except Nat Nat
  | 0, _, left => Except.error left
  | fuel + 1, left, right =>
      if left < right then
        let mid := left + (right - left) / 2
        let v := l.getD mid 0
        if v < t then rbs_loop l t fuel (mid + 1) right
        else if t < v then rbs_loop l t fuel left mid
        else Except.ok mid
      else Except.error left

/-- `Vec::binary_search` (used by `finish_game` on a possibly unsorted list;
the algorithm is total either way). -/
def rust_binary_search (l : List ElemId) (t : ElemId) : Except Nat Nat :=
  rbs_loop l t (l.length + 1) 0 l.length

/-- `Vec::swap_remove`: replace position `i` with the last element, drop the last. -/
def swap_remove (l : List ElemId) (i : Nat) : List ElemId :=
  (l.set i (l.getD (l.length - 1) 0)).dropLast

/-- The mutable state of `finish_game`: the output list, the working acquired
list, and the remaining-work map. -/
structure FGState where
  combinations : List Combination
  acquired : List ElemId
  remaining : List (ElemId × List ElemId)
deriving DecidableEq, Repr

/-- The innermost body of `finish_game` (game_status.rs lines 245-263): handle
one production combination of `created`. -/
def fg_comb_step (hist : List HistoryItem) (elementId createdId : ElemId)
    (st : FGState) (c : Combination) : FGState :=
  if c.containsIds st.acquired then
    let combs :=
      if !(st.combinations.any (fun x => combEq x c)) && !(has_combination hist c) then
        st.combinations ++ [c]
      else st.combinations
    let acq := if st.acquired.contains createdId then st.acquired else st.acquired ++ [createdId]
    let rem :=
      match alookup st.remaining elementId with
      | Option.none => st.remaining
      | some entry =>
          match rust_binary_search entry createdId with
          | Except.ok idx =>
              let entry' := swap_remove entry idx
              if entry'.isEmpty then aremove st.remaining elementId
              else aset st.remaining elementId entry'
          | Except.error _ => st.remaining
    ⟨combs, acq, rem⟩
  else st

/-- The loop over `element.can_create` (game_status.rs lines 242-264);
`none` models the `Index` panic on a missing created element. -/
def fg_created_loop (s : GameStatus) (elementId : ElemId) :
    List ElemId → FGState → Option FGState
  | [], st => some st
  | cid :: rest, st =>
      match elements_get s.elements cid with
      | Option.none => Option.none
      | some created =>
          fg_created_loop s elementId rest
            (created.combinations.foldl (fg_comb_step s.history elementId cid) st)

/-- The loop over the sweep-start snapshot of the acquired list
(game_status.rs lines 239-265). -/
def fg_acquired_loop (s : GameStatus) : List ElemId → FGState → Option FGState
  | [], st => some st
  | eid :: rest, st =>
      match elements_get s.elements eid with
      | Option.none => Option.none
      | some element =>
          match fg_created_loop s eid element.can_create st with
          | Option.none => Option.none
          | some st' => fg_acquired_loop s rest st'

/-- Outcome of `GameStatus::finish_game`. -/
inductive FGRes where
  | result (c : List Combination)
  | panic
  | nofuel
deriving DecidableEq, Repr

/-- The `while !remaining.is_empty()` driver of `finish_game`
(game_status.rs lines 238-267), fuelled. -/
def finish_game_loop (s : GameStatus) : Nat → FGState → FGRes
  | 0, _ => FGRes.nofuel
  | fuel + 1, st =>
      if st.remaining.isEmpty then FGRes.result st.combinations
      else
        match fg_acquired_loop s st.acquired st with
        | Option.none => FGRes.panic
        | some st' =>
            finish_game_loop s fuel
              { st' with acquired := add_unlocked_elements s.elements st'.acquired }

/-- `GameStatus::finish_game` (game_status.rs lines 227-270). -/
def finish_game (s : GameStatus) (fuel : Nat) : FGRes :=
  finish_game_loop s fuel
    { combinations := []
      acquired := s.acquired_elements
      remaining :=
        s.elements.filterMap (fun e =>
          if !(s.acquired_elements.contains e.id) && !e.can_create.isEmpty then
            some (e.id, e.can_create)
          else Option.none) }

/-! ## Specification-side definition for the `can_create` invariant (C3) -/

/-- The spec's derived `canCreate` value: the sorted, deduplicated list of ids
of elements that list `id` in some production combination. -/
def derived_can_create (els : List AlchemyElement) (id : ElemId) : List ElemId :=
  sort_dedup
    ((els.filter (fun e => e.combinations.any (fun c => c.fst == id || c.snd == id))).map
      (fun e => e.id))

/-- The ids pushed onto the scratch entry of `id` by one combination `c` of the
element `eid` (first the `comb.0` push, then the `comb.1` push). -/
def occ_pair (eid id : ElemId) (c : Combination) : List ElemId :=
  (if c.fst == id then [eid] else []) ++ (if c.snd == id then [eid] else [])

/-- The ids pushed onto the scratch entry of `id` by all combinations of `eid`. -/
def occC (eid id : ElemId) (combs : List Combination) : List ElemId :=
  combs.flatMap (occ_pair eid id)

/-- The full contents of the scratch entry of `id` after `build_can_create`. -/
def spine (els : List AlchemyElement) (id : ElemId) : List ElemId :=
  els.flatMap (fun e => occC e.id id e.combinations)

/-! ## Serialization of combinations (serializers.rs, C7)

The JSON layer is external; what the source owns is the conversion of each
`u16` to its decimal string (`number_as_str::serialize`) and the parse back
(`number_as_str::deserialize`, i.e. `str::parse::<u16>`). Strings are modelled
as lists of character codes. -/

/-- Decimal digits of `n`, most significant first; fuelled (`n + 1` always
suffices since `n / 10 < n` for `n ≥ 10`). -/
def to_digits_aux : Nat → Nat → List Nat
  | 0, _ => []
  | f + 1, n => if n < 10 then [n] else to_digits_aux f (n / 10) ++ [n % 10]

/-- Decimal digits of `n` (`u16::to_string` before the digit-to-char step). -/
def nat_to_digits (n : Nat) : List Nat :=
  to_digits_aux (n + 1) n

/-- `u16::to_string` as ASCII codes. -/
def nat_to_codes (n : Nat) : List Nat :=
  (nat_to_digits n).map (fun d => d + 48)

/-- One character of `str::parse::<u16>`: a decimal digit or failure. -/
def digit_of_code (c : Nat) : Option Nat :=
  if 48 ≤ c && c ≤ 57 then some (c - 48) else Option.none

/-- The accumulation step of `str::parse::<u16>`. -/
def parse_step (acc c : Nat) : Option Nat := do
  let d ← digit_of_code c
  some (acc * 10 + d)

/-- Digit-sequence part of `str::parse::<u16>`: non-empty, all digits, value in
`u16` range. -/
def parse_u16_digits (codes : List Nat) : Option Nat :=
  if codes.isEmpty then Option.none
  else do
    let n ← codes.foldlM parse_step 0
    if n < 65536 then some n else Option.none

/-- `str::parse::<u16>` (accepts an optional leading `+`, code 43). -/
def parse_u16 (codes : List Nat) : Option Nat :=
  match codes with
  | [] => Option.none
  | c :: rest => if c == 43 then parse_u16_digits rest else parse_u16_digits (c :: rest)

/-- The serde serialization of a `Combination` (mod.rs lines 7-16 with
`number_as_str`): a sequence of the two ids' decimal strings, in tuple order. -/
def serialize_combination (c : Combination) : List (List Nat) :=
  [nat_to_codes c.fst, nat_to_codes c.snd]

/-- The serde deserialization of a `Combination`: parse both strings back. -/
def deserialize_combination : List (List Nat) → Option Combination
  | [a, b] => do
      let x ← parse_u16 a
      let y ← parse_u16 b
      some (Combination.mk x y)
  | _ => Option.none

/-! ## Concrete game states used by the claims -/

/-- Extracts the memo of an `Ok` outcome of `advance`. -/
def advResMemo : AdvRes → Option Memo
  | AdvRes.ok m _ => some m
  | _ => Option.none

/-- C1 cycle graph: `X` (id 1) produced only by `(Y, p1)`. -/
def c1X : AlchemyElement :=
  ⟨1, "x", [⟨2, 3⟩], false, false, false, false, Condition.none, [2]⟩

/-- C1 cycle graph: `Y` (id 2) produced only by `(X, p2)`. -/
def c1Y : AlchemyElement :=
  ⟨2, "y", [⟨1, 4⟩], false, false, false, false, Condition.none, [1]⟩

/-- C1 cycle graph: the prime `p1` (id 3). -/
def c1P1 : AlchemyElement :=
  ⟨3, "p1", [], true, false, false, false, Condition.none, [1]⟩

/-- C1 cycle graph: the prime `p2` (id 4). -/
def c1P2 : AlchemyElement :=
  ⟨4, "p2", [], true, false, false, false, Condition.none, [2]⟩

/-- C1 cycle graph element list. -/
def c1els : List AlchemyElement := [c1X, c1Y, c1P1, c1P2]

/-- C1 game state after seeding (the two primes acquired). -/
def c1s : GameStatus := ⟨c1els, [3, 4], []⟩

/-- Memo after the first `obtain` round on the C1 graph. -/
def c1M1 : Memo := [(1, ([(c1Y, c1P1)], 1))]

/-- Memo after the second `obtain` round on the C1 graph. -/
def c1M2 : Memo := [(1, ([(c1Y, c1P1)], 1)), (2, ([(c1X, c1P2)], 1)), (3, ([], 0))]

/-- Memo after the third `obtain` round on the C1 graph; a fixpoint of the
fourth and all later rounds. -/
def c1M3 : Memo :=
  [(1, ([(c1Y, c1P1)], 1)), (2, ([(c1X, c1P2)], 1)), (3, ([], 0)), (4, ([], 0))]

/-- C2 graph: prime `A` (id 1). -/
def c2A : AlchemyElement :=
  ⟨1, "a", [], true, false, false, false, Condition.none, [3]⟩

/-- C2 graph: prime `B` (id 2). -/
def c2B : AlchemyElement :=
  ⟨2, "b", [], true, false, false, false, Condition.none, [3]⟩

/-- C2 graph: `C` (id 3), produced by the single combination `(A, B)`. -/
def c2C : AlchemyElement :=
  ⟨3, "c", [⟨1, 2⟩], false, false, false, false, Condition.none, []⟩

/-- C2 graph element list (consistent `can_create` fields). -/
def c2els : List AlchemyElement := [c2A, c2B, c2C]

/-- C2 game state after seeding (`A` and `B` acquired, empty history). -/
def c2s : GameStatus := ⟨c2els, [1, 2], []⟩

/-- C3 counterexample element: non-empty stored `can_create`, yet no element
lists id 1 in any combination. -/
def c3badE : AlchemyElement :=
  ⟨1, "e", [], false, false, false, false, Condition.none, [2]⟩

/-- C3 counterexample graph. -/
def c3bad : List AlchemyElement := [c3badE]

/-- C3 witness graph with a detectable mismatch: element 1 is listed by
element 3's combination, so its stored `can_create = [3, 9]` (extra id 9) is
checked and rejected. -/
def c3mismatchE : AlchemyElement :=
  ⟨1, "a", [], true, false, false, false, Condition.none, [3, 9]⟩

/-- C3 witness graph containing `c3mismatchE`. -/
def c3mismatch : List AlchemyElement := [c3mismatchE, c2B, c2C]

/-- C4 "already satisfied" state: the target (id 1) is prime and acquired. -/
def c4sA : GameStatus :=
  ⟨[⟨1, "p", [], true, false, false, false, Condition.none, []⟩], [1], []⟩

/-- C4 "empty candidate list" state: the target (id 1) is not prime, not
acquired, has no production combinations and no condition. -/
def c4sB : GameStatus :=
  ⟨[⟨1, "e", [], false, false, false, false, Condition.none, []⟩], [], []⟩

/-- C5 counterexample graph: `E` (id 1) has an `Elements([2,3], 2)` condition;
ids 2 and 3 are both produced by the same combination `(4, 5)` of two primes. -/
def c5els : List AlchemyElement :=
  [⟨1, "e", [], false, false, false, false, Condition.elements [2, 3] 2, []⟩,
   ⟨2, "a", [⟨4, 5⟩], false, false, false, false, Condition.none, []⟩,
   ⟨3, "b", [⟨4, 5⟩], false, false, false, false, Condition.none, []⟩,
   ⟨4, "p", [], true, false, false, false, Condition.none, [2, 3]⟩,
   ⟨5, "q", [], true, false, false, false, Condition.none, [2, 3]⟩]

/-- C5 game state after seeding (the two primes acquired). -/
def c5s : GameStatus := ⟨c5els, [4, 5], []⟩

/-- C6 witness element: `Progress(3)` condition. -/
def c6e : AlchemyElement :=
  ⟨10, "prog", [], false, false, false, false, Condition.progress 3, []⟩

/-- C9/C10 witness result state: the state reached from `c2s` by
`combine (1, 2)`. -/
def c9sAfter : GameStatus := ⟨c2els, [1, 2, 3], []⟩

/-- C10 witness state: element 3 is produced by `(1, 2)`, but neither operand
exists or is acquired. -/
def c10s : GameStatus :=
  ⟨[⟨3, "c", [⟨1, 2⟩], false, false, false, false, Condition.none, []⟩], [], []⟩

/-- The state `combine (1, 2)` produces from `c10s`. -/
def c10sAfter : GameStatus :=
  ⟨[⟨3, "c", [⟨1, 2⟩], false, false, false, false, Condition.none, []⟩], [3], []⟩

/-! # Theorems -/

/-! ## Generic helper lemmas -/

/-- A fold whose step only grows the accumulator grows the accumulator. -/
theorem subset_foldl {α : Type} {f : List ElemId → α → List ElemId}
    (H : ∀ a x, a ⊆ f a x) : ∀ (l : List α) (a : List ElemId), a ⊆ List.foldl f a l := by
  intro l
  induction l with
  | nil => exact fun a _ h => h
  | cons x t ih => exact fun a y hy => ih (f a x) (H a x hy)

/-- Each step of `add_prime_elements` only appends. -/
theorem subset_add_prime_step (a : List ElemId) (x : AlchemyElement) :
    a ⊆ (if x.prime then a ++ [x.id] else a) := by
  split
  · exact List.subset_append_left _ _
  · exact fun _ h => h

/-- `add_prime_elements` only appends to the acquired list. -/
theorem subset_add_prime_elements (els : List AlchemyElement) (a : List ElemId) :
    a ⊆ add_prime_elements els a :=
  subset_foldl subset_add_prime_step els a

/-- Each step of `add_unlocked_elements` only appends. -/
theorem subset_unlock_step (a : List ElemId) (x : AlchemyElement) : a ⊆ unlock_step a x := by
  unfold unlock_step
  split
  · exact fun _ h => h
  · split
    · exact List.subset_append_left _ _
    · exact fun _ h => h
  · split
    · exact List.subset_append_left _ _
    · exact fun _ h => h

/-- `add_unlocked_elements` only appends to the acquired list. -/
theorem subset_add_unlocked_elements (els : List AlchemyElement) (a : List ElemId) :
    a ⊆ add_unlocked_elements els a :=
  subset_foldl subset_unlock_step els a

/-- The fold inside `combine`, over a list of elements that all contain the
combination, succeeds, only appends, and ends with every element's id present. -/
theorem combine_fold_adds (c : Combination) :
    ∀ (l : List AlchemyElement) (a : List ElemId),
      (∀ e ∈ l, e.combinations.any (fun cb => combEq cb c) = true) →
      ∃ acq, List.foldlM (combine_step c) a l = some acq ∧ a ⊆ acq ∧ ∀ e ∈ l, e.id ∈ acq := by
  intro l
  induction l with
  | nil =>
      intro a _
      exact ⟨a, rfl, fun _ h => h, fun e he => absurd he (List.not_mem_nil e)⟩
  | cons e t ih =>
      intro a hall
      have he : e.combinations.any (fun cb => combEq cb c) = true :=
        hall e (List.mem_cons_self e t)
      have hstep : combine_step c a e = some (if a.contains e.id then a else a ++ [e.id]) := by
        unfold combine_step
        rw [he]
        simp
      obtain ⟨acq, hfold, hsub, hmem⟩ :=
        ih (if a.contains e.id then a else a ++ [e.id]) (fun x hx => hall x (List.mem_cons_of_mem e hx))
      refine ⟨acq, ?_, ?_, ?_⟩
      · rw [List.foldlM_cons, hstep]
        simpa using hfold
      · intro y hy
        apply hsub
        split
        · exact hy
        · exact List.mem_append_left _ hy
      · intro x hx
        rcases List.mem_cons.mp hx with rfl | hx'
        · apply hsub
          split
          case isTrue h => simpa [List.contains] using h
          case isFalse h => exact List.mem_append_right _ (List.mem_singleton_self _)
        · exact hmem x hx'

/-- Membership in `get_from_combination` unfolded. -/
theorem mem_get_from_combination {els : List AlchemyElement} {c : Combination}
    {e : AlchemyElement} (he : e ∈ get_from_combination els c) :
    e ∈ els ∧ e.combinations.any (fun cb => combEq cb c) = true := by
  unfold get_from_combination at he
  exact List.mem_filter.mp he

/-! ## Claim C9 -/

/-- C9: the acquired set grows monotonically — every operation that touches it
(prime seeding, the unlock-extension pass, `combine`, and the composite
`check`) only ever adds element ids: the acquired list before is a subset of
the acquired list after. (`obtain` and `finish_game` take the state immutably
and never write it back.) -/
theorem c9_acquired_monotone :
    (∀ (els : List AlchemyElement) (a : List ElemId), a ⊆ add_prime_elements els a)
    ∧ (∀ (els : List AlchemyElement) (a : List ElemId), a ⊆ add_unlocked_elements els a)
    ∧ (∀ (s : GameStatus) (c : Combination) (s' : GameStatus),
        combine s c = some s' → s.acquired_elements ⊆ s'.acquired_elements)
    ∧ (∀ (s s' : GameStatus), GameStatus.check s = some s' →
        s.acquired_elements ⊆ s'.acquired_elements) := by
  have hcomb : ∀ (s : GameStatus) (c : Combination) (s' : GameStatus),
      combine s c = some s' → s.acquired_elements ⊆ s'.acquired_elements := by
    intro s c s' h
    unfold combine at h
    cases hfold : List.foldlM (combine_step c) s.acquired_elements
        (get_from_combination s.elements c) with
    | none => rw [hfold] at h; simp at h
    | some acq =>
        rw [hfold] at h
        simp at h
        obtain ⟨acq', hfold', hsub, _⟩ := combine_fold_adds c
          (get_from_combination s.elements c) s.acquired_elements
          (fun e he => (mem_get_from_combination he).2)
        have : acq' = acq := by
          have := hfold'.symm.trans hfold
          exact Option.some.inj this
        subst this
        intro y hy
        have := hsub hy
        rw [← h]
        simpa using this
  refine ⟨subset_add_prime_elements, subset_add_unlocked_elements, hcomb, ?_⟩
  intro s s' h
  unfold GameStatus.check at h
  split at h
  · have h' : s' = { s with acquired_elements :=
        add_unlocked_elements s.elements (add_prime_elements s.elements s.acquired_elements) } :=
      (Option.some.inj h).symm
    subst h'
    exact fun y hy =>
      subset_add_unlocked_elements s.elements _ (subset_add_prime_elements s.elements _ hy)
  · simp at h

/-- C9 witness: `combine (1, 2)` on the concrete state `c2s` keeps the
previously acquired ids. -/
theorem c9_acquired_monotone_witness :
    combine c2s ⟨1, 2⟩ = some c9sAfter ∧ c2s.acquired_elements ⊆ c9sAfter.acquired_elements := by
  have h := c9_acquired_monotone.2.2.1 c2s ⟨1, 2⟩ c9sAfter rfl
  exact ⟨rfl, h⟩

/-! ## Claim C10 -/

/-- C10: `combine` has no precondition on the operands — it adds every element
whose production list contains the combination, regardless of the acquired set
(`can_do_combination` is not consulted), and leaves the acquired list unchanged
when no element's production list matches. -/
theorem c10_combine_unconditional :
    ∀ (s : GameStatus) (c : Combination), ∃ s',
      combine s c = some s'
      ∧ (∀ e ∈ s.elements, e.combinations.any (fun cb => combEq cb c) = true →
          e.id ∈ s'.acquired_elements)
      ∧ ((∀ e ∈ s.elements, e.combinations.any (fun cb => combEq cb c) = false) →
          s'.acquired_elements = s.acquired_elements) := by
  intro s c
  obtain ⟨acq, hfold, hsub, hmem⟩ := combine_fold_adds c
    (get_from_combination s.elements c) s.acquired_elements
    (fun e he => (mem_get_from_combination he).2)
  refine ⟨{ s with acquired_elements := acq }, ?_, ?_, ?_⟩
  · unfold combine
    rw [hfold]
    rfl
  · intro e he hany
    exact hmem e (by
      simp only [get_from_combination]
      exact List.mem_filter.mpr ⟨he, hany⟩)
  · intro hnone
    have hnil : get_from_combination s.elements c = [] := by
      simp only [get_from_combination]
      exact List.filter_eq_nil_iff.mpr (fun e he => by simp [hnone e he])
    rw [hnil] at hfold
    have : s.acquired_elements = acq := Option.some.inj hfold
    simp [← this]

/-- C10 witness: combining `(1, 2)` in `c10s` — where neither operand exists
nor is acquired — still acquires element 3, which is produced by `(1, 2)`. -/
theorem c10_combine_unconditional_witness :
    combine c10s ⟨1, 2⟩ = some c10sAfter
    ∧ (3 : ElemId) ∈ c10sAfter.acquired_elements
    ∧ can_do_combination c10s ⟨1, 2⟩ = false := by
  obtain ⟨s', h1, h2, _⟩ := c10_combine_unconditional c10s ⟨1, 2⟩
  have hs : s' = c10sAfter := Option.some.inj (h1.symm.trans (rfl : combine c10s ⟨1, 2⟩ = some c10sAfter))
  refine ⟨rfl, ?_, by decide⟩
  have h3 := h2 ⟨3, "c", [⟨1, 2⟩], false, false, false, false, Condition.none, []⟩
    (by decide) (by decide)
  rw [hs] at h3
  exact h3

/-! ## Claim C4 -/

/-- C4: `obtain` distinguishes the "already satisfied" case (target prime /
acquired: a normal empty result) from the "empty candidate list" case (a
non-acquired target with no combinations: the `assert_eq!(min, 0)` fails, i.e.
the run panics instead of returning a chain) — the two outcomes differ. -/
theorem c4_satisfied_vs_no_candidates :
    obtain c4sA 1 1 1 = ObtainRes.result []
    ∧ obtain c4sB 1 1 1 = ObtainRes.panic
    ∧ ObtainRes.result ([] : List Combination) ≠ ObtainRes.panic :=
  ⟨rfl, rfl, by decide⟩

/-! ## Claim C2 -/

/-- C2 (code bug evidence): on the graph `{A: prime, B: prime, C: produced by
(A, B)}` with consistent `can_create` fields, `finish_game` returns the empty
list — not `[(A, B)]` as the specification requires — both with an empty
history and with `(A, B)` already in the history, even though `C` (id 3) is
not acquired. The remaining-work map is initialised only from non-acquired
elements with a non-empty `can_create`, so it starts empty and the sweep loop
never runs. -/
theorem c2_finish_game_returns_empty :
    game_status_new c2els [] = some c2s
    ∧ finish_game c2s 5 = FGRes.result []
    ∧ finish_game { c2s with history := [⟨⟨1, 2⟩, 0⟩] } 5 = FGRes.result []
    ∧ (3 : ElemId) ∉ c2s.acquired_elements :=
  ⟨rfl, rfl, rfl, by decide⟩

/-! ## Claim C3, counterexample -/

/-- C3 counterexample: element 1 of `c3bad` has the non-empty stored
`can_create = [2]`, which differs from the derived (empty) list, yet
`check_can_create` accepts the graph — the checker never looks at elements
that no combination references. -/
theorem c3_counterexample :
    c3badE ∈ c3bad
    ∧ c3badE.can_create ≠ []
    ∧ c3badE.can_create ≠ derived_can_create c3bad c3badE.id
    ∧ check_can_create c3bad = true := by
  refine ⟨by decide, by decide, by decide, by decide⟩

/-! ## Claim C5, counterexample -/

/-- C5 counterexample: on `c5s` (an `Elements([2,3], 2)` condition whose two
listed elements share the production combination `(4, 5)`), `obtain` returns
the combination `(4, 5)` twice — the result is redundant. -/
theorem c5_counterexample :
    obtain c5s 1 10 10 = ObtainRes.result [⟨4, 5⟩, ⟨4, 5⟩]
    ∧ ¬ List.Pairwise (fun a b => combEq a b = false)
        [(⟨4, 5⟩ : Combination), ⟨4, 5⟩] := by
  refine ⟨rfl, ?_⟩
  intro h
  have := (List.pairwise_cons.mp h).1 ⟨4, 5⟩ (List.mem_singleton_self _)
  simp [combEq] at this

/-! ## Claim C6 -/

/-- C6: in the unlock-extension pass, an element with a `Progress(total)`
condition is appended exactly when the acquired list at the moment the element
is processed (i.e. before the element itself is added) is strictly longer than
`total`; the rest of the pass is unaffected. -/
theorem c6_progress_strict :
    ∀ (pre post : List AlchemyElement) (e : AlchemyElement) (total : Nat) (a : List ElemId),
      e.condition = Condition.progress total →
      add_unlocked_elements (pre ++ e :: post) a =
        add_unlocked_elements post
          (if (add_unlocked_elements pre a).length > total
           then add_unlocked_elements pre a ++ [e.id]
           else add_unlocked_elements pre a) := by
  intro pre post e total a h
  unfold add_unlocked_elements
  rw [List.foldl_append, List.foldl_cons]
  congr 1
  unfold unlock_step
  rw [h]

/-- C6 witness: an element with `Progress(3)` is not added when the acquired
list has exactly 3 entries. -/
theorem c6_progress_strict_witness :
    add_unlocked_elements [c6e] [7, 8, 9] = [7, 8, 9] := by
  have h := c6_progress_strict [] [] c6e 3 [7, 8, 9] rfl
  simpa using h

/-! ## Claim C8 -/

/-- C8: for any element flagged prime, `obtain` on its id returns the empty
combination list (for any acquired set, in particular the freshly seeded one),
with any fuel: the first round memoises `([], 0)` for the target and the empty
candidate list with requirement 0 immediately propagates the empty chain. -/
theorem c8_prime_obtain_empty :
    ∀ (s : GameStatus) (id : ElemId) (e : AlchemyElement) (aF lF : Nat),
      elements_get s.elements id = some e → e.prime = true →
      obtain s id (aF + 1) (lF + 1) = ObtainRes.result [] := by
  intro s id e aF lF hget hprime
  unfold obtain
  rw [hget]
  have hadv : advance s (aF + 1) e [] [] [] false
      = AdvRes.chain [] (ainsert [] e.id ([], 0)) [] := by
    unfold advance advance_body
    simp [get_path_to_combinations, hprime, advance_after, ainsert, alookup, List.contains]
  unfold obtain_loop
  rw [hadv]

/-- C8 witness: on the concrete one-prime-element state `c4sA`. -/
theorem c8_prime_obtain_empty_witness :
    obtain c4sA 1 1 1 = ObtainRes.result [] :=
  c8_prime_obtain_empty c4sA 1
    ⟨1, "p", [], true, false, false, false, Condition.none, []⟩ 0 0 rfl rfl

/-! ## Claim C7: serialization round trip -/

/-- Every digit produced by `to_digits_aux` is below 10. -/
theorem to_digits_aux_lt_ten : ∀ f n : Nat, n < f → ∀ d ∈ to_digits_aux f n, d < 10 := by
  intro f
  induction f with
  | zero => intro n h; exact absurd h (Nat.not_lt_zero n)
  | succ f ih =>
      intro n h d hd
      unfold to_digits_aux at hd
      split at hd
      · simp at hd
        omega
      · rcases List.mem_append.mp hd with h1 | h2
        · have hdiv : n / 10 < n := Nat.div_lt_self (by omega) (by omega)
          exact ih (n / 10) (by omega) d h1
        · simp at h2
          omega

/-- Folding the digits of `n` back with `acc * 10 + d` recovers `n`. -/
theorem to_digits_aux_foldl :
    ∀ f n : Nat, n < f → (to_digits_aux f n).foldl (fun a d => a * 10 + d) 0 = n := by
  intro f
  induction f with
  | zero => intro n h; exact absurd h (Nat.not_lt_zero n)
  | succ f ih =>
      intro n h
      unfold to_digits_aux
      split
      · simp
      · rw [List.foldl_append]
        have hdiv : n / 10 < n := Nat.div_lt_self (by omega) (by omega)
        rw [ih (n / 10) (by omega)]
        simp [List.foldl]
        omega

/-- The digit list is never empty. -/
theorem to_digits_aux_ne_nil : ∀ f n : Nat, n < f → to_digits_aux f n ≠ [] := by
  intro f
  induction f with
  | zero => intro n h; exact absurd h (Nat.not_lt_zero n)
  | succ f _ =>
      intro n _
      unfold to_digits_aux
      split
      · simp
      · simp

/-- Parsing the code of a decimal digit. -/
theorem digit_of_code_digit (d : Nat) (h : d < 10) : digit_of_code (d + 48) = some d := by
  unfold digit_of_code
  rw [if_pos (by simp [Bool.and_eq_true]; omega)]
  simp

/-- The accumulation fold of `parse_u16` over a list of digit codes. -/
theorem foldlM_parse_step :
    ∀ (ds : List Nat) (acc : Nat), (∀ d ∈ ds, d < 10) →
      List.foldlM parse_step acc (ds.map (fun d => d + 48))
        = some (ds.foldl (fun a d => a * 10 + d) acc) := by
  intro ds
  induction ds with
  | nil => intro acc _; rfl
  | cons d t ih =>
      intro acc hall
      have hd : d < 10 := hall d (List.mem_cons_self d t)
      rw [List.map_cons, List.foldlM_cons]
      have hstep : parse_step acc (d + 48) = some (acc * 10 + d) := by
        unfold parse_step
        rw [digit_of_code_digit d hd]
        rfl
      rw [hstep]
      simpa using ih (acc * 10 + d) (fun x hx => hall x (List.mem_cons_of_mem d hx))

/-- `str::parse::<u16>` inverts `u16::to_string` for values in range. -/
theorem parse_u16_nat_to_codes (n : Nat) (h : n < 65536) :
    parse_u16 (nat_to_codes n) = some n := by
  have hne : nat_to_digits n ≠ [] := to_digits_aux_ne_nil (n + 1) n (Nat.lt_succ_self n)
  have hdig : ∀ d ∈ nat_to_digits n, d < 10 :=
    to_digits_aux_lt_ten (n + 1) n (Nat.lt_succ_self n)
  have hfold : (nat_to_digits n).foldl (fun a d => a * 10 + d) 0 = n :=
    to_digits_aux_foldl (n + 1) n (Nat.lt_succ_self n)
  unfold nat_to_codes
  cases hd : nat_to_digits n with
  | nil => exact absurd hd hne
  | cons d ds =>
      rw [hd] at hdig hfold
      have hd10 : d < 10 := hdig d (List.mem_cons_self d ds)
      rw [List.map_cons]
      simp only [parse_u16]
      rw [show ((d + 48 : Nat) == 43) = false from beq_eq_false_iff_ne.mpr (by omega)]
      simp only [Bool.false_eq_true, if_false]
      unfold parse_u16_digits
      rw [show (((d + 48) :: ds.map (fun d => d + 48)) : List Nat).isEmpty = false from rfl]
      simp only [Bool.false_eq_true, if_false]
      have := foldlM_parse_step (d :: ds) 0 hdig
      rw [List.map_cons] at this
      rw [this, hfold]
      simp [h]

/-- C7: combination equality is order-independent, and serializing then
deserializing a combination (ids in `u16` range) succeeds and yields a value
that is equal to the original under the unordered-pair rule. -/
theorem c7_combination_unordered_roundtrip :
    (∀ a b : ElemId, combEq ⟨a, b⟩ ⟨b, a⟩ = true)
    ∧ (∀ c : Combination, c.fst < 65536 → c.snd < 65536 →
        deserialize_combination (serialize_combination c) = some c ∧ combEq c c = true) := by
  constructor
  · intro a b
    simp [combEq]
  · intro c h1 h2
    constructor
    · simp only [serialize_combination, deserialize_combination]
      rw [parse_u16_nat_to_codes c.fst h1, parse_u16_nat_to_codes c.snd h2]
      rfl
    · simp [combEq]

/-- C7 witness: order independence at `(3, 5)` and the round trip at `(12, 345)`. -/
theorem c7_combination_unordered_roundtrip_witness :
    combEq ⟨3, 5⟩ ⟨5, 3⟩ = true
    ∧ deserialize_combination (serialize_combination ⟨12, 345⟩) = some ⟨12, 345⟩
    ∧ combEq (⟨12, 345⟩ : Combination) ⟨12, 345⟩ = true := by
  refine ⟨c7_combination_unordered_roundtrip.1 3 5, ?_, ?_⟩
  · exact (c7_combination_unordered_roundtrip.2 ⟨12, 345⟩ (by norm_num) (by norm_num)).1
  · exact (c7_combination_unordered_roundtrip.2 ⟨12, 345⟩ (by norm_num) (by norm_num)).2

/-! ## Claim C5: determinism, and non-redundancy of `finish_game` -/

/-- One combination step of `finish_game` preserves pairwise distinctness
(under the unordered combination equality) of the output list: a combination
is pushed only after the `!combinations.contains(combination)` guard. -/
theorem fg_comb_step_pairwise (hist : List HistoryItem) (eid cid : ElemId)
    (st : FGState) (c : Combination)
    (h : List.Pairwise (fun a b => combEq a b = false) st.combinations) :
    List.Pairwise (fun a b => combEq a b = false) (fg_comb_step hist eid cid st c).combinations := by
  unfold fg_comb_step
  split
  · dsimp only
    split
    case isTrue hpush =>
      rw [List.pairwise_append]
      refine ⟨h, List.pairwise_singleton _ _, ?_⟩
      intro a ha b hb
      rw [List.mem_singleton.mp hb]
      have hany : st.combinations.any (fun x => combEq x c) = false := by
        have := (Bool.and_eq_true _ _).mp hpush
        simpa using this.1
      have := List.any_eq_false.mp hany a ha
      simpa using this
    case isFalse => exact h
  · exact h

/-- The fold over a created element's combinations preserves distinctness. -/
theorem fg_fold_pairwise (hist : List HistoryItem) (eid cid : ElemId) :
    ∀ (cs : List Combination) (st : FGState),
      List.Pairwise (fun a b => combEq a b = false) st.combinations →
      List.Pairwise (fun a b => combEq a b = false)
        ((cs.foldl (fg_comb_step hist eid cid) st).combinations) := by
  intro cs
  induction cs with
  | nil => exact fun st h => h
  | cons c t ih =>
      intro st h
      exact ih (fg_comb_step hist eid cid st c) (fg_comb_step_pairwise hist eid cid st c h)

/-- The created-element loop of `finish_game` preserves distinctness. -/
theorem fg_created_loop_pairwise (s : GameStatus) (eid : ElemId) :
    ∀ (cids : List ElemId) (st st' : FGState),
      fg_created_loop s eid cids st = some st' →
      List.Pairwise (fun a b => combEq a b = false) st.combinations →
      List.Pairwise (fun a b => combEq a b = false) st'.combinations := by
  intro cids
  induction cids with
  | nil =>
      intro st st' heq h
      cases Option.some.inj heq
      exact h
  | cons cid t ih =>
      intro st st' heq h
      unfold fg_created_loop at heq
      cases hlook : elements_get s.elements cid with
      | none => rw [hlook] at heq; cases heq
      | some created =>
          rw [hlook] at heq
          exact ih _ st' heq (fg_fold_pairwise s.history eid cid created.combinations st h)

/-- The acquired-snapshot loop of `finish_game` preserves distinctness. -/
theorem fg_acquired_loop_pairwise (s : GameStatus) :
    ∀ (snapshot : List ElemId) (st st' : FGState),
      fg_acquired_loop s snapshot st = some st' →
      List.Pairwise (fun a b => combEq a b = false) st.combinations →
      List.Pairwise (fun a b => combEq a b = false) st'.combinations := by
  intro snapshot
  induction snapshot with
  | nil =>
      intro st st' heq h
      cases Option.some.inj heq
      exact h
  | cons eid t ih =>
      intro st st' heq h
      unfold fg_acquired_loop at heq
      cases hlook : elements_get s.elements eid with
      | none => rw [hlook] at heq; cases heq
      | some element =>
          rw [hlook] at heq
          dsimp only at heq
          cases hinner : fg_created_loop s eid element.can_create st with
          | none => rw [hinner] at heq; cases heq
          | some st1 =>
              rw [hinner] at heq
              exact ih st1 st' heq
                (fg_created_loop_pairwise s eid element.can_create st st1 hinner h)

/-- The sweep driver of `finish_game` preserves distinctness of the output. -/
theorem finish_game_loop_pairwise (s : GameStatus) :
    ∀ (fuel : Nat) (st : FGState) (l : List Combination),
      finish_game_loop s fuel st = FGRes.result l →
      List.Pairwise (fun a b => combEq a b = false) st.combinations →
      List.Pairwise (fun a b => combEq a b = false) l := by
  intro fuel
  induction fuel with
  | zero => intro st l heq; cases heq
  | succ n ih =>
      intro st l heq h
      unfold finish_game_loop at heq
      split at heq
      · cases heq
        exact h
      · cases hsweep : fg_acquired_loop s st.acquired st with
        | none => rw [hsweep] at heq; cases heq
        | some st' =>
            rw [hsweep] at heq
            exact ih _ l heq (fg_acquired_loop_pairwise s st.acquired st st' hsweep h)

/-- C5 (amended): `obtain` and `finish_game` are deterministic — two runs over
the same elements, acquired set and history give the same results — and any
list `finish_game` returns contains no duplicate combinations (unordered
equality). (`obtain`'s result can contain duplicates; see the counterexample.) -/
theorem c5_deterministic_finish_nonredundant :
    (∀ (s t : GameStatus) (id aF lF fg : Nat),
        s.elements = t.elements → s.acquired_elements = t.acquired_elements →
        s.history = t.history →
        obtain s id aF lF = obtain t id aF lF ∧ finish_game s fg = finish_game t fg)
    ∧ (∀ (s : GameStatus) (fg : Nat) (l : List Combination),
        finish_game s fg = FGRes.result l →
        List.Pairwise (fun a b => combEq a b = false) l) := by
  constructor
  · intro s t id aF lF fg h1 h2 h3
    rcases s with ⟨se, sa, sh⟩
    rcases t with ⟨te, ta, th⟩
    dsimp at h1 h2 h3
    subst h1
    subst h2
    subst h3
    exact ⟨rfl, rfl⟩
  · intro s fg l h
    unfold finish_game at h
    exact finish_game_loop_pairwise s fg _ l h List.Pairwise.nil

/-- C5 witness: a run of `obtain` agrees with itself on `c2s`, and the
(empty) list returned by `finish_game` on `c2s` is duplicate-free. -/
theorem c5_deterministic_finish_nonredundant_witness :
    obtain c2s 1 2 2 = obtain c2s 1 2 2
    ∧ List.Pairwise (fun a b => combEq a b = false) ([] : List Combination) :=
  ⟨(c5_deterministic_finish_nonredundant.1 c2s c2s 1 2 2 5 rfl rfl rfl).1,
   c5_deterministic_finish_nonredundant.2 c2s 5 [] rfl⟩

/-! ## Claim C3: the scratch-map fold of `check_can_create` -/

/-- Lookup after one `push_entry`. -/
theorem alookup_push_entry :
    ∀ (m : List (ElemId × List ElemId)) (k v id : ElemId),
      alookup (push_entry m k v) id
        = if k = id then some ((alookup m id).getD [] ++ [v]) else alookup m id := by
  intro m
  induction m with
  | nil =>
      intro k v id
      by_cases h : k = id <;> simp [push_entry, alookup, h]
  | cons p rest ih =>
      intro k v id
      obtain ⟨k', l⟩ := p
      by_cases h1 : k' = k
      · subst h1
        by_cases h2 : k' = id
        · subst h2
          simp [push_entry, alookup]
        · simp [push_entry, alookup, h2]
      · by_cases h2 : k' = id
        · subst h2
          have h3 : ¬ k = k' := fun h => h1 h.symm
          simp [push_entry, alookup, h1, h3]
        · simp [push_entry, alookup, h1, h2, ih]

/-- Lookup after the two pushes of one combination. -/
theorem alookup_push_pair :
    ∀ (m : List (ElemId × List ElemId)) (c : Combination) (eid id : ElemId),
      alookup (push_entry (push_entry m c.fst eid) c.snd eid) id
        = match alookup m id with
          | some l => some (l ++ occ_pair eid id c)
          | Option.none =>
              if occ_pair eid id c = [] then Option.none else some (occ_pair eid id c) := by
  intro m c eid id
  by_cases h1 : c.fst = id <;> by_cases h2 : c.snd = id <;>
    cases halook : alookup m id <;>
      simp [alookup_push_entry, occ_pair, h1, h2, halook]

/-- Lookup after folding all combinations of one element into the scratch map. -/
theorem alookup_inner_fold (eid : ElemId) :
    ∀ (combs : List Combination) (m : List (ElemId × List ElemId)) (id : ElemId),
      alookup (combs.foldl (fun m c => push_entry (push_entry m c.fst eid) c.snd eid) m) id
        = match alookup m id with
          | some l => some (l ++ occC eid id combs)
          | Option.none =>
              if occC eid id combs = [] then Option.none else some (occC eid id combs) := by
  intro combs
  induction combs with
  | nil =>
      intro m id
      cases halook : alookup m id <;> simp [occC, halook]
  | cons c t ih =>
      intro m id
      rw [List.foldl_cons, ih, alookup_push_pair]
      have hocc : occC eid id (c :: t) = occ_pair eid id c ++ occC eid id t := by
        simp [occC]
      rw [hocc]
      cases halook : alookup m id with
      | some l => simp [List.append_assoc]
      | none =>
          by_cases hp : occ_pair eid id c = [] <;> by_cases hq : occC eid id t = [] <;>
            simp [hp, hq]

/-- Lookup after folding all elements into the scratch map. -/
theorem alookup_outer_fold :
    ∀ (els : List AlchemyElement) (m : List (ElemId × List ElemId)) (id : ElemId),
      alookup
        (els.foldl
          (fun m item =>
            item.combinations.foldl
              (fun m c => push_entry (push_entry m c.fst item.id) c.snd item.id) m)
          m) id
        = match alookup m id with
          | some l => some (l ++ spine els id)
          | Option.none =>
              if spine els id = [] then Option.none else some (spine els id) := by
  intro els
  induction els with
  | nil =>
      intro m id
      cases halook : alookup m id <;> simp [spine, halook]
  | cons e t ih =>
      intro m id
      rw [List.foldl_cons, ih, alookup_inner_fold]
      have hsp : spine (e :: t) id = occC e.id id e.combinations ++ spine t id := by
        simp [spine]
      rw [hsp]
      cases halook : alookup m id with
      | some l => simp [List.append_assoc]
      | none =>
          by_cases hp : occC e.id id e.combinations = [] <;> by_cases hq : spine t id = [] <;>
            simp [hp, hq]

/-- The scratch entry of `id` after `build_can_create` is exactly `spine`. -/
theorem alookup_build_can_create (els : List AlchemyElement) (id : ElemId) :
    alookup (build_can_create els) id
      = if spine els id = [] then Option.none else some (spine els id) := by
  unfold build_can_create
  rw [alookup_outer_fold]
  simp [alookup]

/-- Membership in the pushes of one combination. -/
theorem mem_occ_pair {eid id x : ElemId} {c : Combination} :
    x ∈ occ_pair eid id c ↔ ((c.fst == id || c.snd == id) = true ∧ x = eid) := by
  by_cases h1 : c.fst = id <;> by_cases h2 : c.snd = id <;> simp [occ_pair, h1, h2]

/-- Membership in the scratch entry of `id`. -/
theorem mem_spine {els : List AlchemyElement} {id x : ElemId} :
    x ∈ spine els id
      ↔ ∃ e ∈ els, (e.combinations.any (fun c => c.fst == id || c.snd == id)) = true
          ∧ e.id = x := by
  simp only [spine, occC, List.mem_flatMap, mem_occ_pair, List.any_eq_true]
  constructor
  · rintro ⟨e, he, c, hc, hcond, rfl⟩
    exact ⟨e, he, ⟨c, hc, hcond⟩, rfl⟩
  · rintro ⟨e, he, ⟨c, hc, hcond⟩, rfl⟩
    exact ⟨e, he, c, hc, hcond, rfl⟩

/-! ## Claim C3: sort + dedup -/

/-- `dedupAdj` preserves membership. -/
theorem mem_dedupAdj : ∀ (l : List Nat) (x : Nat), x ∈ dedupAdj l ↔ x ∈ l := by
  intro l
  induction l with
  | nil => simp [dedupAdj]
  | cons a t ih =>
      cases t with
      | nil => simp [dedupAdj]
      | cons b r =>
          intro x
          unfold dedupAdj
          by_cases h : a = b
          · subst h
            rw [if_pos (by simp)]
            rw [ih x]
            simp
          · rw [if_neg (by simp [h])]
            simp [ih x]

/-- `dedupAdj` of a `≤`-sorted list is `<`-sorted (hence duplicate-free). -/
theorem pairwise_lt_dedupAdj :
    ∀ l : List Nat, List.Pairwise (· ≤ ·) l → List.Pairwise (· < ·) (dedupAdj l) := by
  intro l
  induction l with
  | nil => intro _; simp [dedupAdj]
  | cons a t ih =>
      cases t with
      | nil => intro _; simp [dedupAdj]
      | cons b r =>
          intro h
          have h1 : ∀ y ∈ b :: r, a ≤ y := (List.pairwise_cons.mp h).1
          have h2 : List.Pairwise (· ≤ ·) (b :: r) := (List.pairwise_cons.mp h).2
          unfold dedupAdj
          by_cases hab : a = b
          · rw [if_pos (by simp [hab])]
            exact ih h2
          · rw [if_neg (by simp [hab])]
            rw [List.pairwise_cons]
            refine ⟨?_, ih h2⟩
            intro y hy
            have hy' : y ∈ b :: r := (mem_dedupAdj (b :: r) y).mp hy
            have hablt : a < b :=
              lt_of_le_of_ne (h1 b (List.mem_cons_self _ _)) hab
            rcases List.mem_cons.mp hy' with rfl | hyr
            · exact hablt
            · have hby : b ≤ y := (List.pairwise_cons.mp h2).1 y hyr
              omega

/-- Two strictly sorted lists with the same members are equal. -/
theorem eq_of_pairwise_lt_ext :
    ∀ l₁ l₂ : List Nat, List.Pairwise (· < ·) l₁ → List.Pairwise (· < ·) l₂ →
      (∀ x, x ∈ l₁ ↔ x ∈ l₂) → l₁ = l₂ := by
  intro l₁
  induction l₁ with
  | nil =>
      intro l₂ _ _ hext
      cases l₂ with
      | nil => rfl
      | cons b m => exact absurd ((hext b).mpr (List.mem_cons_self _ _)) (List.not_mem_nil b)
  | cons a l ih =>
      intro l₂ h1 h2 hext
      cases l₂ with
      | nil => exact absurd ((hext a).mp (List.mem_cons_self _ _)) (List.not_mem_nil a)
      | cons b m =>
          have hal : ∀ y ∈ l, a < y := (List.pairwise_cons.mp h1).1
          have hbm : ∀ y ∈ m, b < y := (List.pairwise_cons.mp h2).1
          have hab : a = b := by
            rcases List.mem_cons.mp ((hext a).mp (List.mem_cons_self _ _)) with h | h
            · exact h
            · have hba : b < a := hbm a h
              rcases List.mem_cons.mp ((hext b).mpr (List.mem_cons_self _ _)) with h' | h'
              · omega
              · have : a < b := hal b h'
                omega
          subst hab
          congr 1
          apply ih m (List.pairwise_cons.mp h1).2 (List.pairwise_cons.mp h2).2
          intro x
          constructor
          · intro hx
            have hax : a < x := hal x hx
            rcases List.mem_cons.mp ((hext x).mp (List.mem_cons_of_mem a hx)) with rfl | h
            · omega
            · exact h
          · intro hx
            have hax : a < x := hbm x hx
            rcases List.mem_cons.mp ((hext x).mpr (List.mem_cons_of_mem a hx)) with rfl | h
            · omega
            · exact h

/-- `sort_dedup` output is strictly sorted. -/
theorem pairwise_lt_sort_dedup (l : List Nat) : List.Pairwise (· < ·) (sort_dedup l) :=
  pairwise_lt_dedupAdj _ (List.sorted_insertionSort (· ≤ ·) l)

/-- `sort_dedup` preserves membership. -/
theorem mem_sort_dedup {l : List Nat} {x : Nat} : x ∈ sort_dedup l ↔ x ∈ l := by
  unfold sort_dedup
  rw [mem_dedupAdj]
  exact (List.perm_insertionSort (· ≤ ·) l).mem_iff

/-- `sort_dedup` depends only on membership. -/
theorem sort_dedup_ext {l₁ l₂ : List Nat} (h : ∀ x, x ∈ l₁ ↔ x ∈ l₂) :
    sort_dedup l₁ = sort_dedup l₂ :=
  eq_of_pairwise_lt_ext _ _ (pairwise_lt_sort_dedup l₁) (pairwise_lt_sort_dedup l₂)
    (fun x => by rw [mem_sort_dedup, mem_sort_dedup]; exact h x)

/-- Sorting and deduplicating a scratch entry gives the spec's derived list. -/
theorem sort_dedup_spine (els : List AlchemyElement) (id : ElemId) :
    sort_dedup (spine els id) = derived_can_create els id := by
  unfold derived_can_create
  apply sort_dedup_ext
  intro x
  rw [mem_spine]
  simp only [List.mem_map, List.mem_filter]
  constructor
  · rintro ⟨e, he, hcond, rfl⟩
    exact ⟨e, ⟨he, hcond⟩, rfl⟩
  · rintro ⟨e, ⟨he, hcond⟩, rfl⟩
    exact ⟨e, he, hcond, rfl⟩

/-- A non-empty derived list means the scratch entry is non-empty. -/
theorem spine_ne_nil_of_derived {els : List AlchemyElement} {id : ElemId}
    (h : derived_can_create els id ≠ []) : spine els id ≠ [] := by
  intro hnil
  exact h (by rw [← sort_dedup_spine els id, hnil]; rfl)

/-- C3 (amended): `check_can_create` accepts every graph whose stored
`canCreate` lists all equal the derived (sorted, deduplicated) lists; and for
every element that at least one combination references (non-empty derived
list), a stored list differing from the derived one makes the check fail.
(An element nothing references is not checked at all — see the
counterexample.) -/
theorem c3_can_create_invariant :
    ∀ els : List AlchemyElement,
      ((∀ e ∈ els, e.can_create = derived_can_create els e.id) → check_can_create els = true)
      ∧ (∀ e ∈ els, derived_can_create els e.id ≠ [] →
          e.can_create ≠ derived_can_create els e.id → check_can_create els = false) := by
  intro els
  constructor
  · intro H
    simp only [check_can_create]
    rw [List.all_eq_true]
    intro item hitem
    rw [alookup_build_can_create]
    by_cases hs : spine els item.id = []
    · rw [if_pos hs]
    · rw [if_neg hs]
      dsimp only
      rw [sort_dedup_spine, ← H item hitem]
      simp
  · intro e he hne hneq
    cases hall : check_can_create els with
    | false => rfl
    | true =>
        exfalso
        simp only [check_can_create] at hall
        rw [List.all_eq_true] at hall
        have hpass := hall e he
        rw [alookup_build_can_create, if_neg (spine_ne_nil_of_derived hne)] at hpass
        dsimp only at hpass
        rw [sort_dedup_spine, beq_iff_eq] at hpass
        exact hneq hpass.symm

/-- C3 witness: a fully consistent graph passes; a graph whose referenced
element stores an extra id fails. -/
theorem c3_can_create_invariant_witness :
    check_can_create c2els = true ∧ check_can_create c3mismatch = false :=
  ⟨(c3_can_create_invariant c2els).1 (by decide),
   (c3_can_create_invariant c3mismatch).2 c3mismatchE (by decide) (by decide) (by decide)⟩

/-! ## Claim C1: the cycle graph makes `obtain` diverge -/

/-- Round 1 on the cycle graph: the target's candidates are memoised, `Ok`. -/
theorem c1_step0 : advResMemo (advance c1s 10 c1X [] [] [] false) = some c1M1 := by rfl

/-- Round 2: `Y` and `p1` are memoised, no candidate is ready, `Ok`. -/
theorem c1_step1 : advResMemo (advance c1s 10 c1X c1M1 [] [] true) = some c1M2 := by rfl

/-- Round 3: `p2` is memoised; the cycle guard blocks `X` under `Y`, `Ok`. -/
theorem c1_step2 : advResMemo (advance c1s 10 c1X c1M2 [] [] true) = some c1M3 := by rfl

/-- Round 4 and onwards: the memo is a fixpoint and the call keeps returning
`Ok` — no chain is ever produced. -/
theorem c1_step3 : advResMemo (advance c1s 10 c1X c1M3 [] [] true) = some c1M3 := by rfl

/-- One driver round: if `advance` returns `Ok` with memo `next`, the loop
continues with `next`. -/
theorem c1_loop_step (m next : Memo) (r : Bool) (n : Nat)
    (hstep : advResMemo (advance c1s 10 c1X m [] [] r) = some next)
    (hnext : obtain_loop c1s c1X 10 n next true = ObtainRes.nofuel) :
    obtain_loop c1s c1X 10 (n + 1) m r = ObtainRes.nofuel := by
  simp only [obtain_loop]
  cases hadv : advance c1s 10 c1X m [] [] r with
  | ok m' rh =>
      rw [hadv] at hstep
      simp only [advResMemo, Option.some.injEq] at hstep
      rw [hstep]
      exact hnext
  | chain c mm rr => rw [hadv] at hstep; simp [advResMemo] at hstep
  | panic => rw [hadv] at hstep; simp [advResMemo] at hstep
  | nofuel => rfl

/-- The driver loop on the cycle graph runs out of any amount of fuel: its
memo state cycles through `[] → c1M1 → c1M2 → c1M3 → c1M3 → …` with every
round returning `Ok`. -/
theorem c1_loop :
    ∀ (lF : Nat) (m : Memo) (r : Bool),
      ((m = [] ∧ r = false) ∨ (m = c1M1 ∧ r = true) ∨ (m = c1M2 ∧ r = true)
        ∨ (m = c1M3 ∧ r = true)) →
      obtain_loop c1s c1X 10 lF m r = ObtainRes.nofuel := by
  intro lF
  induction lF with
  | zero => intro m r _; rfl
  | succ n ih =>
      intro m r hP
      rcases hP with ⟨rfl, rfl⟩ | ⟨rfl, rfl⟩ | ⟨rfl, rfl⟩ | ⟨rfl, rfl⟩
      · exact c1_loop_step _ c1M1 _ n c1_step0 (ih c1M1 true (Or.inr (Or.inl ⟨rfl, rfl⟩)))
      · exact c1_loop_step _ c1M2 _ n c1_step1 (ih c1M2 true (Or.inr (Or.inr (Or.inl ⟨rfl, rfl⟩))))
      · exact c1_loop_step _ c1M3 _ n c1_step2 (ih c1M3 true (Or.inr (Or.inr (Or.inr ⟨rfl, rfl⟩))))
      · exact c1_loop_step _ c1M3 _ n c1_step3 (ih c1M3 true (Or.inr (Or.inr (Or.inr ⟨rfl, rfl⟩))))

/-- C1 (code bug evidence): on the mutual-cycle graph (`X` produced only by
`(Y, p1)`, `Y` produced only by `(X, p2)`, neither prime, `p1`/`p2` prime),
`obtain X` never terminates: with recursion fuel 10 (ample for this 4-element
graph — every round is proven to return a real `Ok`, never `nofuel`), the
driver loop returns `nofuel` for every loop fuel, i.e. it never produces a
result. The cycle guard returns `Ok(())` ("not satisfied"), so no candidate of
`X` or `Y` can ever have two satisfied operands and the memo stabilises with
every round returning `Ok`. -/
theorem c1_cycle_nontermination :
    game_status_new c1els [] = some c1s
    ∧ ∀ lF : Nat, obtain c1s 1 10 lF = ObtainRes.nofuel := by
  refine ⟨rfl, ?_⟩
  intro lF
  have h : obtain c1s 1 10 lF = obtain_loop c1s c1X 10 lF [] false := rfl
  rw [h]
  exact c1_loop lF [] false (Or.inl ⟨rfl, rfl⟩)

end LittleAlchemy2
